import Mathlib

/- Shallow embedding of src/dip/dip.py (the DIP manifest engine).

   Modelling conventions:
   - Timestamps are Nat.  The code stores second-granularity datetimes as
     strings and round-trips them losslessly through strftime/strptime, so
     a totally ordered Nat is a faithful model of the comparisons.
   - The ambient filesystem (os.path.realpath, os.path.isfile, file
     contents, os.path.getmtime) and hashlib.md5 are model parameters
     carried in a Filesystem structure; file contents and metadata are
     keyed on canonical (real) paths, which makes every spelling of the
     same underlying file agree, exactly as the OS does.
   - The persisted deposit.json document is the disk field of DIPState;
     DIP._save_deposit_info is modelled by copying the in-memory manifest
     to disk (saveState).
   - Python exceptions (InitialiseException, IndexError, AttributeError)
     are modelled with Except; an operation that raises returns .error.
   - uuid.uuid4() is modelled by an explicit fresh argument. -/

namespace Dip

/-- Model of the ambient filesystem and of hashlib.md5.  realpath is the
OS canonicalisation of a path (resolving symlinks and relative
segments); isFileAt, contentAt and mtimeAt are keyed on real paths. -/
structure Filesystem where
  realpath : String → String
  isFileAt : String → Bool
  contentAt : String → String
  mtimeAt : String → Nat
  md5 : String → String

/-- Split a character list on the path separator. -/
def splitAux : List Char → List Char → List (List Char)
  | [], acc => [acc.reverse]
  | c :: cs, acc => if c = '/' then acc.reverse :: splitAux cs [] else splitAux cs (c :: acc)

/-- Path components of a string, dropping empty and "." components. -/
def splitPath (s : String) : List String :=
  ((splitAux s.data []).map String.mk).filter (fun c => !(c == "") && !(c == "."))

/-- Drop the common leading components of two component lists. -/
def dropCommon : List String → List String → List String × List String
  | x :: xs, y :: ys => if x = y then dropCommon xs ys else (x :: xs, y :: ys)
  | xs, ys => (xs, ys)

/-- Join path components with the separator. -/
def joinParts : List String → String
  | [] => ""
  | [p] => p
  | p :: rest => p ++ "/" ++ joinParts rest

/-- os.path.relpath(path, start) for canonical absolute inputs. -/
def relpath (path start : String) : String :=
  let pr := dropCommon (splitPath path) (splitPath start)
  let parts := pr.2.map (fun _ => "..") ++ pr.1
  if parts = [] then "." else joinParts parts

/-- dip._normalise_path: realpath followed by relpath against the base. -/
def normalise_path (fs : Filesystem) (path normalise_to : String) : String :=
  relpath (fs.realpath path) normalise_to

/-- dip._absolute_path: abspath(normpath(join(from_path, rel_path))) for an
absolute from_path and an already normalised rel_path. -/
def absolute_path (rel_path from_path : String) : String :=
  from_path ++ "/" ++ rel_path

/-- open(p).read() -/
def readFile (fs : Filesystem) (p : String) : String := fs.contentAt (fs.realpath p)

/-- os.path.isfile -/
def isfile (fs : Filesystem) (p : String) : Bool := fs.isFileAt (fs.realpath p)

/-- os.path.getmtime -/
def getmtime (fs : Filesystem) (p : String) : Nat := fs.mtimeAt (fs.realpath p)

/-- An endpoint record of the manifest (class Endpoint's raw dict).  The
Endpoint constructor always fills in an id, so id is not optional. -/
structure Endpoint where
  id : String
  sd_iri : Option String := none
  col_iri : Option String := none
  package : Option String := none
  username : Option String := none
  obo : Option String := none
deriving Repr, DecidableEq

/-- A deposit-log entry of a file record: an endpoint id and the last
deposit timestamp. -/
structure DepositEntry where
  id : String
  last_deposit : Nat
deriving Repr, DecidableEq

/-- A file record of the manifest (path, md5, added, updated, endpoints).
A record freshly created by _add_file_record has no endpoints key, which
the code reads back with raw.get with default, hence the [] default. -/
structure FileRecord where
  path : String
  md5 : String
  added : Nat
  updated : Nat
  endpoints : List DepositEntry := []
deriving Repr, DecidableEq

/-- The deposit.json document (metadata entries carry no behaviour in the
source and are omitted). -/
structure Manifest where
  created : Nat := 0
  files : List FileRecord := []
  endpoints : List Endpoint := []
deriving Repr, DecidableEq

/-- The DIP object's state: the in-memory manifest (deposit_info_raw) and
the persisted copy on disk. -/
structure DIPState where
  manifest : Manifest
  disk : Manifest
deriving Repr, DecidableEq

/-- DIP._save_deposit_info: write the in-memory manifest to disk. -/
def saveState (st : DIPState) : DIPState := { st with disk := st.manifest }

/-- DIP.get_endpoint: first endpoint with the given id. -/
def get_endpoint (m : Manifest) (endpoint_id : String) : Option Endpoint :=
  m.endpoints.find? (fun e => e.id == endpoint_id)

/-- DIP.get_file: first file record whose path equals the normalised path. -/
def get_file (fs : Filesystem) (base : String) (m : Manifest) (path : String) : Option FileRecord :=
  m.files.find? (fun fr => fr.path == normalise_path fs path base)

/-- Update the first record matching p in place (the Python code mutates
the matched raw dict by reference). -/
def updateFirst (p : FileRecord → Bool) (f : FileRecord → FileRecord) : List FileRecord → List FileRecord
  | [] => []
  | x :: xs => if p x then f x :: xs else x :: updateFirst p f xs

/-- DIP.set_file with DIP._update_file_record and DIP._add_file_record
inlined.  An existing record for the normalised path gets md5 and updated
refreshed (reading the file at the absolutised stored path); otherwise a
new record is appended, hashing the file at the supplied path.  Both
branches save.  The InitialiseException on a non-file is .error. -/
def set_file (fs : Filesystem) (now : Nat) (base : String) (st : DIPState) (path : String) : Except Unit DIPState :=
  let norm := normalise_path fs path base
  if isfile fs path = false then .error () else
  match st.manifest.files.find? (fun fr => fr.path == norm) with
  | some _ =>
    let upd := fun (r : FileRecord) =>
      { r with md5 := fs.md5 (readFile fs (absolute_path r.path base)), updated := now }
    let files' := updateFirst (fun fr => fr.path == norm) upd st.manifest.files
    .ok (saveState { st with manifest := { st.manifest with files := files' } })
  | none =>
    let newRec : FileRecord :=
      { path := norm, md5 := fs.md5 (readFile fs path), added := now, updated := now, endpoints := [] }
    .ok (saveState { st with manifest := { st.manifest with files := st.manifest.files ++ [newRec] } })

/-- The loop of DIP.remove_file: for i in range(len(files)), delete files[i]
when its path matches.  The range is computed from the pre-deletion
length, so after a deletion the later indices can run past the end of the
shortened list; that IndexError is .error, carrying the list as mutated at
the moment of the raise. -/
def removeLoop (norm : String) : List Nat → List FileRecord → Except (List FileRecord) (List FileRecord)
  | [], files => .ok files
  | i :: rest, files =>
    match files.get? i with
    | none => .error files
    | some fr =>
      if fr.path == norm then removeLoop norm rest (files.eraseIdx i)
      else removeLoop norm rest files

/-- DIP.remove_file.  Note: no branch calls _save_deposit_info, so the disk
copy is untouched whether or not the loop raises. -/
def remove_file (fs : Filesystem) (base : String) (st : DIPState) (path : String) : Except DIPState DIPState :=
  let norm := normalise_path fs path base
  match removeLoop norm (List.range st.manifest.files.length) st.manifest.files with
  | .ok files => .ok { st with manifest := { st.manifest with files := files } }
  | .error files => .error { st with manifest := { st.manifest with files := files } }

/-- The Endpoint constructor for keyword arguments: fields copied over, and
an id minted (fresh models uuid.uuid4()) when none is supplied. -/
def mkEndpoint (sd_iri col_iri package username obo id : Option String) (fresh : String) : Endpoint :=
  { id := id.getD fresh, sd_iri := sd_iri, col_iri := col_iri,
    package := package, username := username, obo := obo }

/-- The common tail of DIP.set_endpoint: validate sd_iri, find an existing
endpoint with the same id, delete it, append the new endpoint, save.  The
branch minting an id for an id-less endpoint (lines 187-189) is dead code,
because the Endpoint constructor always fills in an id. -/
def set_endpoint_common (st : DIPState) (ep : Endpoint) : Except Unit (DIPState × Endpoint) :=
  if ep.sd_iri = none then .error () else
  let eps := match st.manifest.endpoints.findIdx? (fun e => e.id == ep.id) with
    | some i => st.manifest.endpoints.eraseIdx i
    | none => st.manifest.endpoints
  .ok (saveState { st with manifest := { st.manifest with endpoints := eps ++ [ep] } }, ep)

/-- DIP.set_endpoint.  Either an Endpoint object is supplied, or one is
constructed from the keyword arguments; constructing without sd_iri is an
InitialiseException (.error), as is an endpoint whose sd_iri is None. -/
def set_endpoint (st : DIPState) (endpoint : Option Endpoint)
    (id sd_iri col_iri package username obo : Option String) (fresh : String) :
    Except Unit (DIPState × Endpoint) :=
  match endpoint with
  | none =>
    match sd_iri with
    | none => .error ()
    | some _ => set_endpoint_common st (mkEndpoint sd_iri col_iri package username obo id fresh)
  | some ep => set_endpoint_common st ep

/-- DIP.remove_endpoint with delete_in_repository = False: remove the first
endpoint with the given id and save; no-op (and no save) otherwise.  File
records' deposit logs are not touched. -/
def remove_endpoint (st : DIPState) (endpoint_id : String) : DIPState :=
  match st.manifest.endpoints.findIdx? (fun e => e.id == endpoint_id) with
  | none => st
  | some i => saveState { st with manifest := { st.manifest with endpoints := st.manifest.endpoints.eraseIdx i } }

/-- DepositFile._mark_deposited on the i-th file record.  Every existing
entry with the endpoint id has its last_deposit overwritten (no registry
check on that path); only when no entry matched (tripwire False) does the
append consult the endpoint registry.  Always saves. -/
def mark_deposited (st : DIPState) (i : Nat) (endpoint_id : String)
    (last_deposited : Option Nat) (now : Nat) : DIPState :=
  match st.manifest.files.get? i with
  | none => st
  | some r =>
    let ld := last_deposited.getD now
    let es := r.endpoints.map (fun e => if e.id == endpoint_id then { e with last_deposit := ld } else e)
    let tripwire := r.endpoints.any (fun e => e.id == endpoint_id)
    let es' := if tripwire then es
      else if (get_endpoint st.manifest endpoint_id).isSome then
        es ++ [{ id := endpoint_id, last_deposit := ld }]
      else es
    let files' := st.manifest.files.set i { r with endpoints := es' }
    saveState { st with manifest := { st.manifest with files := files' } }

/-- The four DepositState verdict tags. -/
inductive Verdict
  | OUT_OF_DATE
  | UP_TO_DATE
  | NOT_DEPOSITED
  | NO_ACTION
deriving Repr, DecidableEq

/-- An EndpointRecord as built by DepositFile.endpoints and by get_state:
the endpoint looked up by id (None when dangling) and an optional last
deposit timestamp (None for NOT_DEPOSITED records). -/
structure ERecordM where
  endpoint : Option Endpoint
  last_deposit : Option Nat
deriving Repr, DecidableEq

/-- One element of DepositState.states: (state, deposit_file,
endpoint_record-or-None). -/
structure StateEntry where
  verdict : Verdict
  file : FileRecord
  er : Option ERecordM
deriving Repr, DecidableEq

/-- Lines 318-324 of get_state: classify each deposit-log entry of a file.
The log message dereferences er.endpoint.id in both branches, so a
dangling entry (endpoint id not in the registry, er.endpoint None) raises
AttributeError, modelled as .error. -/
def entryVerdicts (m : Manifest) (fr : FileRecord) : List DepositEntry → Except Unit (List StateEntry)
  | [] => .ok []
  | e :: rest =>
    match get_endpoint m e.id with
    | none => .error ()
    | some ep =>
      match entryVerdicts m fr rest with
      | .error u => .error u
      | .ok vs =>
        .ok ({ verdict := if fr.updated > e.last_deposit then .OUT_OF_DATE else .UP_TO_DATE,
               file := fr,
               er := some { endpoint := some ep, last_deposit := some e.last_deposit } } :: vs)

/-- Line 326 of get_state: feids, the resolved endpoint id of every
deposit-log entry; dereferences er.endpoint.id, so dangling raises. -/
def depositIds (m : Manifest) : List DepositEntry → Except Unit (List String)
  | [] => .ok []
  | e :: rest =>
    match get_endpoint m e.id with
    | none => .error ()
    | some ep =>
      match depositIds m rest with
      | .error u => .error u
      | .ok l => .ok (ep.id :: l)

/-- The NOT_DEPOSITED record built at line 331 of get_state:
EndpointRecord(self.get_endpoint(eid), None). -/
def ndEntry (m : Manifest) (fr : FileRecord) (eid : String) : StateEntry :=
  { verdict := .NOT_DEPOSITED, file := fr,
    er := some { endpoint := get_endpoint m eid, last_deposit := none } }

/-- Lines 327-331 of get_state: a NOT_DEPOSITED record for every registered
endpoint id absent from feids. -/
def notDeposited (m : Manifest) (fr : FileRecord) (feids : List String) : List StateEntry :=
  ((m.endpoints.map Endpoint.id).filter (fun eid => !(feids.contains eid))).map (ndEntry m fr)

/-- DepositState._lookup_states at f.path: states whose deposit file has
the same absolute path. -/
def lookupCount (base : String) (acc : List StateEntry) (fr : FileRecord) : Nat :=
  (acc.filter (fun s => absolute_path s.file.path base == absolute_path fr.path base)).length

/-- Lines 314-336 of get_state: walk the files accumulating states; after a
file's comparison and NOT_DEPOSITED records, a NO_ACTION record is added
iff the accumulated states hold nothing for that file's path. -/
def reconcileGo (base : String) (m : Manifest) : List FileRecord → List StateEntry → Except Unit (List StateEntry)
  | [], acc => .ok acc
  | fr :: rest, acc =>
    match entryVerdicts m fr fr.endpoints with
    | .error u => .error u
    | .ok evs =>
      match depositIds m fr.endpoints with
      | .error u => .error u
      | .ok feids =>
        let acc1 := acc ++ evs ++ notDeposited m fr feids
        let acc2 := if lookupCount base acc1 fr = 0 then
            acc1 ++ [{ verdict := .NO_ACTION, file := fr, er := none }]
          else acc1
        reconcileGo base m rest acc2

/-- Lines 303-308 of get_state: re-register every file whose on-disk mtime
is strictly newer than its recorded updated timestamp. -/
def refreshGo (fs : Filesystem) (now : Nat) (base : String) : List FileRecord → DIPState → Except Unit DIPState
  | [], st => .ok st
  | fr :: rest, st =>
    if getmtime fs (absolute_path fr.path base) > fr.updated then
      match set_file fs now base st (absolute_path fr.path base) with
      | .error u => .error u
      | .ok st' => refreshGo fs now base rest st'
    else refreshGo fs now base rest st

/-- DIP.get_state: refresh stale files, then reconcile, returning the
possibly updated state together with the DepositState contents. -/
def get_state (fs : Filesystem) (now : Nat) (base : String) (st : DIPState) :
    Except Unit (DIPState × List StateEntry) :=
  match refreshGo fs now base st.manifest.files st with
  | .error u => .error u
  | .ok st' =>
    match reconcileGo base st'.manifest st'.manifest.files [] with
    | .error u => .error u
    | .ok vs => .ok (st', vs)

/-- The endpoint id a state entry refers to, when its endpoint record holds
a resolved endpoint. -/
def erIdOf (s : StateEntry) : Option String :=
  match s.er with
  | none => none
  | some er => er.endpoint.map Endpoint.id

/-- Number of state entries mentioning file path p and endpoint id eid. -/
def pairCount (vs : List StateEntry) (p eid : String) : Nat :=
  vs.countP (fun s => decide (s.file.path = p ∧ erIdOf s = some eid))

/-- Number of state entries for (p, eid) carrying tag t. -/
def tagCount (vs : List StateEntry) (p eid : String) (t : Verdict) : Nat :=
  vs.countP (fun s => decide (s.file.path = p ∧ erIdOf s = some eid ∧ s.verdict = t))

/-- Number of NO_ACTION entries for file path p. -/
def noActionCount (vs : List StateEntry) (p : String) : Nat :=
  vs.countP (fun s => decide (s.file.path = p ∧ s.verdict = Verdict.NO_ACTION))

/-- Number of non-NO_ACTION entries for file path p. -/
def otherCount (vs : List StateEntry) (p : String) : Nat :=
  vs.countP (fun s => decide (s.file.path = p ∧ s.verdict ≠ Verdict.NO_ACTION))

/-- Every deposit-log entry of fr resolves against the registry. -/
abbrev noDanglingFile (m : Manifest) (fr : FileRecord) : Prop :=
  ∀ e ∈ fr.endpoints, (get_endpoint m e.id).isSome = true

/-- Every deposit-log entry of every file resolves against the registry. -/
abbrev noDangling (m : Manifest) : Prop := ∀ fr ∈ m.files, noDanglingFile m fr

/-- No tracked file is newer on disk than its recorded updated time. -/
abbrev noStale (fs : Filesystem) (base : String) (m : Manifest) : Prop :=
  ∀ fr ∈ m.files, getmtime fs (absolute_path fr.path base) ≤ fr.updated

/-- Each file's deposit log is keyed uniquely by endpoint id. -/
abbrev entryIdsNodup (m : Manifest) : Prop :=
  ∀ fr ∈ m.files, (fr.endpoints.map DepositEntry.id).Nodup

/-- The state entry produced for a resolvable deposit-log entry (the value
entryVerdicts yields when get_endpoint succeeds). -/
def evEntry (m : Manifest) (fr : FileRecord) (e : DepositEntry) : StateEntry :=
  { verdict := if fr.updated > e.last_deposit then .OUT_OF_DATE else .UP_TO_DATE,
    file := fr,
    er := some { endpoint := get_endpoint m e.id, last_deposit := some e.last_deposit } }

/-- The states get_state accumulates for one file when every deposit-log
entry resolves: comparison verdicts, then NOT_DEPOSITED records, then a
NO_ACTION record exactly when the first two groups are empty. -/
def fileBlock (m : Manifest) (fr : FileRecord) : List StateEntry :=
  let evs := fr.endpoints.map (evEntry m fr)
  let nd := notDeposited m fr (fr.endpoints.map DepositEntry.id)
  evs ++ nd ++ (if evs ++ nd = [] then [{ verdict := .NO_ACTION, file := fr, er := none }] else [])

/-- Concatenation of the per-file state blocks in file order. -/
def blocks (m : Manifest) : List FileRecord → List StateEntry
  | [] => []
  | fr :: rest => fileBlock m fr ++ blocks m rest

/-- A concrete filesystem for evaluating the model: realpath is the
identity, every path is a regular file with content x, mtime 0, and the
digest of a content string is the string itself. -/
def fsA : Filesystem :=
  { realpath := fun p => p, isFileAt := fun _ => true, contentAt := fun _ => "x",
    mtimeAt := fun _ => 0, md5 := fun s => s }

/-- A tracked file record with no deposit log. -/
def frA : FileRecord := { path := "a", md5 := "x", added := 0, updated := 5, endpoints := [] }

/-- A manifest tracking frA and no endpoints. -/
def mA : Manifest := { created := 0, files := [frA], endpoints := [] }

/-- An endpoint registered with id E. -/
def epE : Endpoint := { id := "E", sd_iri := some "s" }

/-- A tracked file whose deposit log references endpoint E at time 5. -/
def frE : FileRecord := { path := "a", md5 := "x", added := 0, updated := 5,
                          endpoints := [{ id := "E", last_deposit := 5 }] }

/-- State with endpoint E registered and frE deposited to it. -/
def stC3 : DIPState :=
  { manifest := { created := 0, files := [frE], endpoints := [epE] },
    disk := { created := 0, files := [frE], endpoints := [epE] } }

def epA : Endpoint := { id := "a1", sd_iri := some "s1" }
def epB : Endpoint := { id := "b1", sd_iri := some "s2" }
def epA2 : Endpoint := { id := "a1", sd_iri := some "s3" }

/-- State with two endpoints registered, epA first. -/
def stC5 : DIPState :=
  { manifest := { created := 0, files := [], endpoints := [epA, epB] },
    disk := { created := 0, files := [], endpoints := [epA, epB] } }

/-- A tracked file whose deposit log references an endpoint id X that is
not registered (the registry is empty). -/
def frX : FileRecord := { path := "a", md5 := "x", added := 0, updated := 5,
                          endpoints := [{ id := "X", last_deposit := 5 }] }

/-- State tracking frX, with an empty endpoint registry. -/
def stC6 : DIPState :=
  { manifest := { created := 0, files := [frX], endpoints := [] },
    disk := { created := 0, files := [frX], endpoints := [] } }

/-- The empty DIP state. -/
def stEmpty : DIPState :=
  { manifest := { created := 0, files := [], endpoints := [] },
    disk := { created := 0, files := [], endpoints := [] } }

/-- State with endpoint epE registered and frX tracked, whose single
deposit-log entry names the unregistered id X. -/
def stC1x : DIPState :=
  { manifest := { created := 0, files := [frX], endpoints := [epE] },
    disk := { created := 0, files := [frX], endpoints := [epE] } }

/-- A well-formed witness endpoint. -/
def epW : Endpoint := { id := "E1", sd_iri := some "s" }

/-- A well-formed witness file record deposited to epW at time 5, equal to
its own updated time. -/
def frW : FileRecord := { path := "a", md5 := "x", added := 0, updated := 5,
                          endpoints := [{ id := "E1", last_deposit := 5 }] }

/-- Witness state: one endpoint, one file, fully consistent. -/
def stW : DIPState :=
  { manifest := { created := 0, files := [frW], endpoints := [epW] },
    disk := { created := 0, files := [frW], endpoints := [epW] } }

/-- A filesystem on which the spellings a and ./a resolve to the same
real file /b/a. -/
def fsC9 : Filesystem :=
  { realpath := fun p => if p == "a" || p == "./a" then "/b/a" else p,
    isFileAt := fun _ => true, contentAt := fun _ => "x",
    mtimeAt := fun _ => 0, md5 := fun s => s }

def fr0 : FileRecord := { path := "a0", md5 := "x", added := 0, updated := 0 }

def frR : FileRecord := { path := "r", md5 := "x", added := 0, updated := 0 }

def fr1 : FileRecord := { path := "b1", md5 := "x", added := 0, updated := 0 }

/-- State tracking three files, the removal target in the middle. -/
def stC10 : DIPState :=
  { manifest := { created := 0, files := [fr0, frR, fr1], endpoints := [] },
    disk := { created := 0, files := [fr0, frR, fr1], endpoints := [] } }

/-- C2: removing the only tracked file succeeds, removes the record from
the in-memory manifest, but never persists: the on-disk manifest still
holds the record after the call returns, because remove_file has no call
to _save_deposit_info. -/
theorem C2_remove_file_not_persisted :
    remove_file fsA "/b" { manifest := mA, disk := mA } "/b/a" =
      .ok { manifest := { created := 0, files := [], endpoints := [] }, disk := mA } ∧
    mA.files = [frA] := by
  exact ⟨rfl, rfl⟩

/-- C3: removing endpoint E leaves frE's deposit-log entry for E intact
(no cascade), but the subsequent get_state does not complete: the log
statement dereferences er.endpoint.id on the now unresolvable endpoint
record, raising AttributeError instead of excluding the entry's
verdicts. -/
theorem C3_dangling_entry_crashes_get_state :
    (remove_endpoint stC3 "E").manifest.files = [frE] ∧
    (remove_endpoint stC3 "E").manifest.endpoints = [] ∧
    get_state fsA 0 "/b" (remove_endpoint stC3 "E") = .error () := by
  exact ⟨rfl, rfl, rfl⟩

/-- C5 counterexample: upserting an endpoint whose id matches the first of
two registered endpoints does not replace it in place: the replacement
ends up after epB, so the record at position 0 is now epB, not the
replacement. -/
theorem C5_counterexample :
    set_endpoint stC5 (some epA2) none none none none none none "f" =
      .ok ({ manifest := { created := 0, files := [], endpoints := [epB, epA2] },
             disk := { created := 0, files := [], endpoints := [epB, epA2] } }, epA2) ∧
    epB.id ≠ epA2.id := by
  exact ⟨rfl, by decide⟩

/-- C6 counterexample: marking a deposit for the unregistered endpoint id X
on a file that already holds an entry for X overwrites that entry's
timestamp (5 becomes 9): the registry check guards only the append path,
so the call does not leave the deposit log unchanged. -/
theorem C6_counterexample :
    get_endpoint stC6.manifest "X" = none ∧
    (mark_deposited stC6 0 "X" (some 9) 0).manifest.files =
      [{ path := "a", md5 := "x", added := 0, updated := 5,
         endpoints := [{ id := "X", last_deposit := 9 }] }] ∧
    frX.endpoints = [{ id := "X", last_deposit := 5 }] := by
  exact ⟨rfl, rfl, rfl⟩

/-- C8 counterexample: setting an endpoint whose sd_iri is the empty string
succeeds and registers the endpoint; the validation only rejects an
absent (None) sd_iri, so an empty string is not a ValidationError. -/
theorem C8_counterexample :
    set_endpoint stEmpty none none (some "") none none none none "F" =
      .ok ({ manifest := { created := 0, files := [],
                           endpoints := [{ id := "F", sd_iri := some "" }] },
             disk := { created := 0, files := [],
                       endpoints := [{ id := "F", sd_iri := some "" }] } },
            { id := "F", sd_iri := some "" }) ∧
    ("" : String).length = 0 := by
  exact ⟨rfl, rfl⟩

theorem list_set_self {α} (l : List α) (i : Nat) (x : α) (h : l.get? i = some x) :
    l.set i x = l := by
  induction l generalizing i with
  | nil => rfl
  | cons a t ih =>
    cases i with
    | zero => simp at h; simp [List.set, h]
    | succ j => simp [List.set]; exact ih j (by simpa using h)

theorem map_id_of_mem {α} (l : List α) (f : α → α) (h : ∀ x ∈ l, f x = x) :
    l.map f = l := by
  induction l with
  | nil => rfl
  | cons a t ih =>
    simp [List.map, h a (by simp)]
    exact ih (fun x hx => h x (by simp [hx]))

theorem find?_eq_of_front {α} (p : α → Bool) (A : List α) (r : α) (B : List α)
    (hA : ∀ x ∈ A, p x = false) (hr : p r = true) :
    (A ++ r :: B).find? p = some r := by
  induction A with
  | nil => simp [List.find?_cons_of_pos _ hr]
  | cons x A ih =>
    have hx : p x = false := hA x (by simp)
    have hneg : ¬ (p x = true) := by simp [hx]
    rw [List.cons_append, List.find?_cons_of_neg _ hneg]
    exact ih (fun y hy => hA y (by simp [hy]))

theorem updateFirst_append_cons (p : FileRecord → Bool) (f : FileRecord → FileRecord)
    (A : List FileRecord) (r : FileRecord) (B : List FileRecord)
    (hA : ∀ x ∈ A, p x = false) (hr : p r = true) :
    updateFirst p f (A ++ r :: B) = A ++ f r :: B := by
  induction A with
  | nil => simp [updateFirst, hr]
  | cons x A ih =>
    have hx : p x = false := hA x (by simp)
    simp only [List.cons_append, updateFirst, hx]
    simp only [Bool.false_eq_true, if_false, List.cons.injEq, true_and]
    exact ih (fun y hy => hA y (by simp [hy]))

theorem updateFirst_find?_isSome (p : FileRecord → Bool) (f : FileRecord → FileRecord)
    (hp : ∀ x, p x = true → p (f x) = true) (l : List FileRecord)
    (h : (l.find? p).isSome = true) : ((updateFirst p f l).find? p).isSome = true := by
  induction l with
  | nil => simp [List.find?] at h
  | cons x t ih =>
    by_cases hx : p x = true
    · simp [updateFirst, hx, List.find?_cons_of_pos _ (hp x hx)]
    · have hx' : p x = false := by
        cases hpx : p x with
        | true => exact absurd hpx hx
        | false => rfl
      simp only [updateFirst, hx', Bool.false_eq_true, if_false]
      rw [List.find?_cons_of_neg _ (by simp [hx'])] at h ⊢
      exact ih h

theorem norm_eq_of_realpath_eq (fs : Filesystem) (base p1 p2 : String)
    (h : fs.realpath p1 = fs.realpath p2) :
    normalise_path fs p1 base = normalise_path fs p2 base := by
  simp only [normalise_path, h]

/-- C5 (amended): upserting an endpoint whose id matches the record at
position k removes that record and appends the replacement at the end of
the sequence (the other endpoints keep their relative order, but the
replaced endpoint moves to the last position), and the manifest is
saved. -/
theorem C5_upsert_removes_then_appends (st : DIPState) (ep : Endpoint) (k : Nat) (fresh : String)
    (hidx : st.manifest.endpoints.findIdx? (fun e => e.id == ep.id) = some k)
    (hsd : ep.sd_iri ≠ none) :
    set_endpoint st (some ep) none none none none none none fresh =
      .ok ({ manifest := { st.manifest with endpoints := st.manifest.endpoints.eraseIdx k ++ [ep] },
             disk := { st.manifest with endpoints := st.manifest.endpoints.eraseIdx k ++ [ep] } }, ep) := by
  simp only [set_endpoint, set_endpoint_common, if_neg hsd, hidx, saveState]

theorem C5_upsert_removes_then_appends_witness :
    stC5.manifest.endpoints.findIdx? (fun e => e.id == epA2.id) = some 0 ∧
    epA2.sd_iri ≠ none ∧
    set_endpoint stC5 (some epA2) none none none none none none "f" =
      .ok ({ manifest := { stC5.manifest with endpoints := stC5.manifest.endpoints.eraseIdx 0 ++ [epA2] },
             disk := { stC5.manifest with endpoints := stC5.manifest.endpoints.eraseIdx 0 ++ [epA2] } }, epA2) :=
  ⟨by decide, by decide, C5_upsert_removes_then_appends stC5 epA2 0 "f" (by decide) (by decide)⟩

/-- C6 (amended): marking a deposit for an endpoint id that is not
registered, on a file record holding no existing entry for that id,
returns without raising and leaves the deposit log (indeed the whole
manifest) unchanged: the append is skipped because the registry lookup
fails; the unchanged manifest is still saved. -/
theorem C6_mark_deposited_unregistered_no_append (st : DIPState) (i : Nat) (eid : String)
    (ld : Option Nat) (now : Nat) (r : FileRecord)
    (hr : st.manifest.files.get? i = some r)
    (hreg : get_endpoint st.manifest eid = none)
    (hent : ∀ e ∈ r.endpoints, e.id ≠ eid) :
    (mark_deposited st i eid ld now).manifest = st.manifest ∧
    (mark_deposited st i eid ld now).disk = st.manifest := by
  have hmap : r.endpoints.map (fun e => if e.id == eid then { e with last_deposit := ld.getD now } else e) = r.endpoints := by
    apply map_id_of_mem
    intro e he
    have : (e.id == eid) = false := by
      simp [hent e he]
    simp [this]
  have hany : r.endpoints.any (fun e => e.id == eid) = false := by
    simp only [List.any_eq_false]
    intro e he
    simp [hent e he]
  have hreg' : (get_endpoint st.manifest eid).isSome = false := by simp [hreg]
  have : mark_deposited st i eid ld now =
      saveState { st with manifest := { st.manifest with files := st.manifest.files.set i { r with endpoints := r.endpoints } } } := by
    simp only [mark_deposited, hr, hmap, hany, hreg', Bool.false_eq_true, if_false]
  rw [this]
  have hrr : ({ r with endpoints := r.endpoints } : FileRecord) = r := rfl
  rw [hrr, list_set_self st.manifest.files i r hr]
  exact ⟨rfl, rfl⟩

theorem C6_mark_deposited_unregistered_no_append_witness :
    stC6.manifest.files.get? 0 = some frX ∧
    get_endpoint stC6.manifest "Z" = none ∧
    (∀ e ∈ frX.endpoints, e.id ≠ "Z") ∧
    ((mark_deposited stC6 0 "Z" (some 9) 0).manifest = stC6.manifest ∧
     (mark_deposited stC6 0 "Z" (some 9) 0).disk = stC6.manifest) :=
  ⟨by decide, by decide, by decide,
   C6_mark_deposited_unregistered_no_append stC6 0 "Z" (some 9) 0 frX (by decide) (by decide) (by decide)⟩

/-- C8 (amended): set_endpoint fails with InitialiseException exactly when
the effective sd_iri is absent (None); any present string, including the
empty string, is accepted.  The failure is raised before any mutation, so
the registry is untouched on failure. -/
theorem C8_sd_iri_rejected_iff_absent (st : DIPState) (endpoint : Option Endpoint)
    (id sd col pkg usr obo : Option String) (fresh : String) :
    set_endpoint st endpoint id sd col pkg usr obo fresh = .error () ↔
      (match endpoint with
       | some ep => ep.sd_iri = none
       | none => sd = none) := by
  cases endpoint with
  | none =>
    cases sd with
    | none => simp [set_endpoint]
    | some s => simp [set_endpoint, set_endpoint_common, mkEndpoint]
  | some ep =>
    by_cases h : ep.sd_iri = none
    · simp [set_endpoint, set_endpoint_common, h]
    · simp [set_endpoint, set_endpoint_common, h]

/-- C7: re-registering an already tracked path updates the existing record
in place: no duplicate is inserted (the list keeps its length and the
other records), addedAt is untouched, contentHash and updatedAt are
recomputed, and when the bytes are unchanged the recomputed hash equals
the stored one.  The updated manifest is saved. -/
theorem C7_reregister_updates_in_place (fs : Filesystem) (now : Nat) (base : String)
    (st : DIPState) (p : String) (A B : List FileRecord) (r : FileRecord)
    (hsplit : st.manifest.files = A ++ r :: B)
    (hA : ∀ x ∈ A, x.path ≠ normalise_path fs p base)
    (hr : r.path = normalise_path fs p base)
    (hf : isfile fs p = true) :
    ∃ st' r', set_file fs now base st p = .ok st' ∧
      st'.manifest.files = A ++ r' :: B ∧
      st'.manifest.files.length = st.manifest.files.length ∧
      r'.added = r.added ∧
      r'.path = r.path ∧
      r'.endpoints = r.endpoints ∧
      r'.updated = now ∧
      r'.md5 = fs.md5 (readFile fs (absolute_path r.path base)) ∧
      (r.md5 = fs.md5 (readFile fs (absolute_path r.path base)) → r'.md5 = r.md5) ∧
      st'.disk = st'.manifest := by
  have hAb : ∀ x ∈ A, ((fun fr => fr.path == normalise_path fs p base) x) = false := by
    intro x hx
    simp [hA x hx]
  have hrb : ((fun fr => fr.path == normalise_path fs p base) r) = true := by simp [hr]
  have hfind : st.manifest.files.find? (fun fr => fr.path == normalise_path fs p base) = some r := by
    rw [hsplit]
    exact find?_eq_of_front _ A r B hAb hrb
  have hupd : updateFirst (fun fr => fr.path == normalise_path fs p base)
      (fun q => { q with md5 := fs.md5 (readFile fs (absolute_path q.path base)), updated := now })
      st.manifest.files =
      A ++ { r with md5 := fs.md5 (readFile fs (absolute_path r.path base)), updated := now } :: B := by
    rw [hsplit]
    exact updateFirst_append_cons _ _ A r B hAb hrb
  refine ⟨saveState { st with manifest := { st.manifest with files := (A ++
      { r with md5 := fs.md5 (readFile fs (absolute_path r.path base)), updated := now } :: B) } },
    { r with md5 := fs.md5 (readFile fs (absolute_path r.path base)), updated := now },
    ?_, rfl, ?_, rfl, rfl, rfl, rfl, rfl, fun h => h.symm, rfl⟩
  · simp only [set_file, hf, Bool.true_eq_false, if_false, hfind, hupd]
  · simp only [saveState, hsplit]
    simp

theorem C7_reregister_updates_in_place_witness :
    ({ manifest := mA, disk := mA } : DIPState).manifest.files = [] ++ frA :: [] ∧
    (∀ x ∈ ([] : List FileRecord), x.path ≠ normalise_path fsA "/b/a" "/b") ∧
    frA.path = normalise_path fsA "/b/a" "/b" ∧
    isfile fsA "/b/a" = true ∧
    (∃ st' r', set_file fsA 7 "/b" { manifest := mA, disk := mA } "/b/a" = .ok st' ∧
      st'.manifest.files = [] ++ r' :: [] ∧
      st'.manifest.files.length = ({ manifest := mA, disk := mA } : DIPState).manifest.files.length ∧
      r'.added = frA.added ∧
      r'.path = frA.path ∧
      r'.endpoints = frA.endpoints ∧
      r'.updated = 7 ∧
      r'.md5 = fsA.md5 (readFile fsA (absolute_path frA.path "/b")) ∧
      (frA.md5 = fsA.md5 (readFile fsA (absolute_path frA.path "/b")) → r'.md5 = frA.md5) ∧
      st'.disk = st'.manifest) :=
  ⟨by decide, by decide, by decide, by decide,
   C7_reregister_updates_in_place fsA 7 "/b" { manifest := mA, disk := mA } "/b/a" [] [] frA
     (by decide) (by decide) (by decide) (by decide)⟩

/-- C9: two spellings of the same underlying file (equal realpaths)
normalise to the same stored path, so registering through one spelling
and looking up through the other finds the very same FileRecord. -/
theorem C9_register_find_same_record (fs : Filesystem) (now : Nat) (base : String)
    (st : DIPState) (p1 p2 : String)
    (hrp : fs.realpath p1 = fs.realpath p2) (hne : p1 ≠ p2) (hf : isfile fs p1 = true) :
    ∃ st', set_file fs now base st p1 = .ok st' ∧
      get_file fs base st'.manifest p2 = get_file fs base st'.manifest p1 ∧
      (get_file fs base st'.manifest p1).isSome = true := by
  have hnorm : normalise_path fs p2 base = normalise_path fs p1 base :=
    norm_eq_of_realpath_eq fs base p2 p1 hrp.symm
  cases hfind : st.manifest.files.find? (fun fr => fr.path == normalise_path fs p1 base) with
  | some r =>
    refine ⟨saveState { st with manifest := { st.manifest with files := (updateFirst
        (fun fr => fr.path == normalise_path fs p1 base)
        (fun q => { q with md5 := fs.md5 (readFile fs (absolute_path q.path base)), updated := now })
        st.manifest.files) } }, ?_, ?_, ?_⟩
    · simp only [set_file, hf, Bool.true_eq_false, if_false, hfind]
    · simp only [get_file, hnorm]
    · simp only [get_file, saveState]
      apply updateFirst_find?_isSome
      · intro x hx
        simpa using hx
      · simp [hfind]
  | none =>
    refine ⟨saveState { st with manifest := { st.manifest with files := (st.manifest.files ++
        [{ path := normalise_path fs p1 base, md5 := fs.md5 (readFile fs p1),
           added := now, updated := now, endpoints := [] }]) } }, ?_, ?_, ?_⟩
    · simp only [set_file, hf, Bool.true_eq_false, if_false, hfind]
    · simp only [get_file, hnorm]
    · simp only [get_file, saveState]
      rw [List.find?_append]
      simp [hfind, List.find?_cons]

theorem C9_register_find_same_record_witness :
    fsC9.realpath "a" = fsC9.realpath "./a" ∧
    ("a" : String) ≠ "./a" ∧
    isfile fsC9 "a" = true ∧
    (∃ st', set_file fsC9 7 "/b" stEmpty "a" = .ok st' ∧
      get_file fsC9 "/b" st'.manifest "./a" = get_file fsC9 "/b" st'.manifest "a" ∧
      (get_file fsC9 "/b" st'.manifest "a").isSome = true) :=
  ⟨by decide, by decide, by decide,
   C9_register_find_same_record fsC9 7 "/b" stEmpty "a" "./a" (by decide) (by decide) (by decide)⟩

theorem string_append_left_cancel (s t u : String) (h : s ++ t = s ++ u) : t = u := by
  apply String.ext
  have h' : (s ++ t).data = (s ++ u).data := by rw [h]
  rw [String.data_append, String.data_append] at h'
  exact List.append_cancel_left h'

theorem absolute_path_inj (base a b : String)
    (h : absolute_path a base = absolute_path b base) : a = b := by
  exact string_append_left_cancel (base ++ "/") a b (by simpa [absolute_path, String.append_assoc] using h)

theorem abs_beq (base x y : String) :
    (absolute_path x base == absolute_path y base) = (x == y) := by
  by_cases h : x = y
  · simp [h]
  · have h2 : absolute_path x base ≠ absolute_path y base :=
      fun hc => h (absolute_path_inj base x y hc)
    simp [h, h2]

theorem get_endpoint_id (m : Manifest) (i : String) (ep : Endpoint)
    (h : get_endpoint m i = some ep) : ep.id = i := by
  have := List.find?_some h
  simpa using this

theorem get_endpoint_isSome_iff (m : Manifest) (i : String) :
    (get_endpoint m i).isSome = true ↔ ∃ ep ∈ m.endpoints, ep.id = i := by
  simp [get_endpoint, List.find?_isSome]

theorem entryVerdicts_ok (m : Manifest) (fr : FileRecord) (l : List DepositEntry)
    (h : ∀ e ∈ l, (get_endpoint m e.id).isSome = true) :
    entryVerdicts m fr l = .ok (l.map (evEntry m fr)) := by
  induction l with
  | nil => rfl
  | cons e rest ih =>
    obtain ⟨ep, hep⟩ := Option.isSome_iff_exists.mp (h e (by simp))
    rw [List.map_cons]
    simp only [entryVerdicts, hep, ih (fun x hx => h x (by simp [hx]))]
    simp [evEntry, hep]

theorem depositIds_ok (m : Manifest) (l : List DepositEntry)
    (h : ∀ e ∈ l, (get_endpoint m e.id).isSome = true) :
    depositIds m l = .ok (l.map DepositEntry.id) := by
  induction l with
  | nil => rfl
  | cons e rest ih =>
    obtain ⟨ep, hep⟩ := Option.isSome_iff_exists.mp (h e (by simp))
    have hid : ep.id = e.id := get_endpoint_id m e.id ep hep
    rw [List.map_cons]
    simp only [depositIds, hep, ih (fun x hx => h x (by simp [hx]))]
    simp [hid]

theorem mem_evs_file (m : Manifest) (fr : FileRecord) (l : List DepositEntry) (s : StateEntry)
    (h : s ∈ l.map (evEntry m fr)) : s.file = fr := by
  obtain ⟨e, _, rfl⟩ := List.mem_map.mp h
  rfl

theorem mem_notDeposited_file (m : Manifest) (fr : FileRecord) (ids : List String) (s : StateEntry)
    (h : s ∈ notDeposited m fr ids) : s.file = fr := by
  obtain ⟨e, _, rfl⟩ := List.mem_map.mp h
  rfl

theorem mem_fileBlock_file (m : Manifest) (fr : FileRecord) (s : StateEntry)
    (h : s ∈ fileBlock m fr) : s.file = fr := by
  simp only [fileBlock, List.mem_append] at h
  rcases h with (h | h) | h
  · exact mem_evs_file m fr _ s h
  · exact mem_notDeposited_file m fr _ s h
  · by_cases hc : fr.endpoints.map (evEntry m fr) ++ notDeposited m fr (fr.endpoints.map DepositEntry.id) = []
    · rw [if_pos hc] at h
      simp only [List.mem_singleton] at h
      rw [h]
    · rw [if_neg hc] at h
      simp at h

theorem mem_blocks (m : Manifest) (l : List FileRecord) (s : StateEntry)
    (h : s ∈ blocks m l) : ∃ fr ∈ l, s.file = fr := by
  induction l with
  | nil => simp [blocks] at h
  | cons fr rest ih =>
    simp only [blocks, List.mem_append] at h
    rcases h with h | h
    · exact ⟨fr, by simp, mem_fileBlock_file m fr s h⟩
    · obtain ⟨fr', hm, hf⟩ := ih h
      exact ⟨fr', by simp [hm], hf⟩

theorem reconcileGo_blocks (base : String) (m : Manifest) (l : List FileRecord) :
    ∀ (acc : List StateEntry),
    (∀ fr ∈ l, noDanglingFile m fr) →
    ((l.map FileRecord.path).Nodup) →
    (∀ fr ∈ l, ∀ s ∈ acc, s.file.path ≠ fr.path) →
    reconcileGo base m l acc = .ok (acc ++ blocks m l) := by
  induction l with
  | nil => intro acc _ _ _; simp [reconcileGo, blocks]
  | cons fr rest ih =>
    intro acc hnd hnodup hacc
    have hfr : noDanglingFile m fr := hnd fr (by simp)
    have hnodup2 : (fr.path :: rest.map FileRecord.path).Nodup := by
      simpa only [List.map_cons] using hnodup
    obtain ⟨hnotmem, hnodup'⟩ := List.nodup_cons.mp hnodup2
    simp only [reconcileGo, entryVerdicts_ok m fr fr.endpoints hfr, depositIds_ok m fr.endpoints hfr]
    set evs := fr.endpoints.map (evEntry m fr) with hevs
    set nd := notDeposited m fr (fr.endpoints.map DepositEntry.id) with hnd2
    have hfilter_acc : acc.filter (fun s => absolute_path s.file.path base == absolute_path fr.path base) = [] := by
      apply List.filter_eq_nil_iff.mpr
      intro s hs
      rw [abs_beq]
      simp [hacc fr (by simp) s hs]
    have hfilter_evs : evs.filter (fun s => absolute_path s.file.path base == absolute_path fr.path base) = evs := by
      apply List.filter_eq_self.mpr
      intro s hs
      rw [abs_beq, mem_evs_file m fr _ s hs]
      simp
    have hfilter_nd : nd.filter (fun s => absolute_path s.file.path base == absolute_path fr.path base) = nd := by
      apply List.filter_eq_self.mpr
      intro s hs
      rw [abs_beq, mem_notDeposited_file m fr _ s hs]
      simp
    have hlook : lookupCount base (acc ++ evs ++ nd) fr = evs.length + nd.length := by
      simp [lookupCount, List.filter_append, hfilter_acc, hfilter_evs, hfilter_nd]
    have haccnext : ∀ fr' ∈ rest, ∀ s ∈ acc ++ fileBlock m fr, s.file.path ≠ fr'.path := by
      intro fr' hfr' s hs
      rcases List.mem_append.mp hs with h | h
      · exact hacc fr' (by simp [hfr']) s h
      · rw [mem_fileBlock_file m fr s h]
        intro hcontra
        apply hnotmem
        rw [hcontra]
        exact List.mem_map.mpr ⟨fr', hfr', rfl⟩
    by_cases hempty : evs ++ nd = []
    · have he1 : evs = [] := (List.append_eq_nil.mp hempty).1
      have he2 : nd = [] := (List.append_eq_nil.mp hempty).2
      have hlook0 : lookupCount base (acc ++ evs ++ nd) fr = 0 := by
        rw [hlook, he1, he2]; simp
      rw [if_pos hlook0]
      have hblock : fileBlock m fr = [{ verdict := .NO_ACTION, file := fr, er := none }] := by
        simp only [fileBlock, ← hevs, ← hnd2, he1, he2]
        simp
      have hih := ih (acc ++ evs ++ nd ++ [({ verdict := Verdict.NO_ACTION, file := fr, er := none } : StateEntry)])
        (fun x hx => hnd x (by simp [hx])) hnodup' (by
          intro fr' hfr' s hs
          apply haccnext fr' hfr' s
          rw [hblock]
          simp only [he1, he2] at hs
          simpa using hs)
      rw [hih]
      simp only [blocks, hblock, he1, he2]
      simp
    · have hne0 : ¬ lookupCount base (acc ++ evs ++ nd) fr = 0 := by
        rw [hlook]
        intro hc
        apply hempty
        have h1 : evs = [] := by rw [← List.length_eq_zero]; omega
        have h2 : nd = [] := by rw [← List.length_eq_zero]; omega
        simp [h1, h2]
      rw [if_neg hne0]
      have hblock : fileBlock m fr = evs ++ nd := by
        simp only [fileBlock, ← hevs, ← hnd2, if_neg hempty]
        simp
      have hih := ih (acc ++ evs ++ nd) (fun x hx => hnd x (by simp [hx])) hnodup' (by
        intro fr' hfr' s hs
        apply haccnext fr' hfr' s
        rw [hblock]
        simpa using hs)
      rw [hih]
      simp only [blocks, hblock]
      simp

theorem refreshGo_id (fs : Filesystem) (now : Nat) (base : String) (l : List FileRecord)
    (st : DIPState) (h : ∀ fr ∈ l, getmtime fs (absolute_path fr.path base) ≤ fr.updated) :
    refreshGo fs now base l st = .ok st := by
  induction l with
  | nil => rfl
  | cons fr rest ih =>
    have hle := h fr (by simp)
    simp only [refreshGo, if_neg (Nat.not_lt.mpr hle)]
    exact ih (fun x hx => h x (by simp [hx]))

theorem get_state_blocks (fs : Filesystem) (now : Nat) (base : String) (st : DIPState)
    (hns : noStale fs base st.manifest) (hnd : noDangling st.manifest)
    (hnodup : (st.manifest.files.map FileRecord.path).Nodup) :
    get_state fs now base st = .ok (st, blocks st.manifest st.manifest.files) := by
  simp only [get_state]
  rw [refreshGo_id fs now base st.manifest.files st hns]
  show (match reconcileGo base st.manifest st.manifest.files [] with
    | Except.error u => Except.error u
    | Except.ok vs => Except.ok (st, vs)) =
    Except.ok (st, blocks st.manifest st.manifest.files)
  rw [reconcileGo_blocks base st.manifest st.manifest.files [] hnd hnodup (by simp)]
  rfl

theorem countP_congr_mem {α : Type} (l : List α) (p q : α → Bool) (h : ∀ x ∈ l, p x = q x) :
    l.countP p = l.countP q := by
  rw [List.countP_eq_length_filter, List.countP_eq_length_filter, List.filter_congr h]

theorem countP_key_once {α : Type} (key : α → String) (eid : String) (P : α → Prop)
    [DecidablePred P] (l : List α) (hnodup : (l.map key).Nodup) :
    l.countP (fun x => decide (key x = eid ∧ P x)) =
      if (∃ x ∈ l, key x = eid ∧ P x) then 1 else 0 := by
  induction l with
  | nil => simp
  | cons a t ih =>
    have hnodup2 : (key a :: t.map key).Nodup := by
      simpa only [List.map_cons] using hnodup
    obtain ⟨hka, hnd⟩ := List.nodup_cons.mp hnodup2
    rw [List.countP_cons]
    by_cases hk : key a = eid
    · have htail : t.countP (fun x => decide (key x = eid ∧ P x)) = 0 := by
        apply List.countP_eq_zero.mpr
        intro x hx
        simp only [decide_eq_true_eq]
        rintro ⟨hkx, _⟩
        apply hka
        have hax : key a = key x := by rw [hk, hkx]
        rw [hax]
        exact List.mem_map.mpr ⟨x, hx, rfl⟩
      by_cases hP : P a
      · have hex : ∃ x ∈ a :: t, key x = eid ∧ P x := ⟨a, by simp, hk, hP⟩
        rw [htail, if_pos hex]
        simp [hk, hP]
      · have hex : ¬ ∃ x ∈ a :: t, key x = eid ∧ P x := by
          rintro ⟨x, hx, hkx, hPx⟩
          rcases List.mem_cons.mp hx with rfl | hxt
          · exact hP hPx
          · apply hka
            have hax : key a = key x := by rw [hk, hkx]
            rw [hax]
            exact List.mem_map.mpr ⟨x, hxt, rfl⟩
        rw [htail, if_neg hex]
        simp [hP]
    · have hiff : (∃ x ∈ a :: t, key x = eid ∧ P x) ↔ (∃ x ∈ t, key x = eid ∧ P x) := by
        constructor
        · rintro ⟨x, hx, hkx, hPx⟩
          rcases List.mem_cons.mp hx with rfl | hxt
          · exact absurd hkx hk
          · exact ⟨x, hxt, hkx, hPx⟩
        · rintro ⟨x, hx, hkx, hPx⟩
          exact ⟨x, by simp [hx], hkx, hPx⟩
      rw [ih hnd, if_congr hiff rfl rfl]
      simp [hk]

theorem key_unique {α : Type} (key : α → String) (l : List α) (hnodup : (l.map key).Nodup) :
    ∀ x ∈ l, ∀ y ∈ l, key x = key y → x = y := by
  induction l with
  | nil => simp
  | cons a t ih =>
    have hnodup2 : (key a :: t.map key).Nodup := by
      simpa only [List.map_cons] using hnodup
    obtain ⟨hka, hnd⟩ := List.nodup_cons.mp hnodup2
    intro x hx y hy hxy
    rcases List.mem_cons.mp hx with rfl | hxt
    · rcases List.mem_cons.mp hy with rfl | hyt
      · rfl
      · exfalso
        apply hka
        rw [hxy]
        exact List.mem_map.mpr ⟨y, hyt, rfl⟩
    · rcases List.mem_cons.mp hy with rfl | hyt
      · exfalso
        apply hka
        rw [← hxy]
        exact List.mem_map.mpr ⟨x, hxt, rfl⟩
      · exact ih hnd x hxt y hyt hxy

theorem pairCount_evs (m : Manifest) (fr : FileRecord) (eid : String)
    (hfr : noDanglingFile m fr) (hde : (fr.endpoints.map DepositEntry.id).Nodup) :
    (fr.endpoints.map (evEntry m fr)).countP
        (fun s => decide (s.file.path = fr.path ∧ erIdOf s = some eid)) =
      if eid ∈ fr.endpoints.map DepositEntry.id then 1 else 0 := by
  rw [List.countP_map]
  have hcongr : ∀ e ∈ fr.endpoints,
      ((fun s => decide (s.file.path = fr.path ∧ erIdOf s = some eid)) ∘ (evEntry m fr)) e =
        decide (DepositEntry.id e = eid ∧ True) := by
    intro e he
    obtain ⟨ep, hep⟩ := Option.isSome_iff_exists.mp (hfr e he)
    have hid : ep.id = e.id := get_endpoint_id m e.id ep hep
    simp [Function.comp, evEntry, erIdOf, hep, hid]
  rw [countP_congr_mem _ _ _ hcongr, countP_key_once DepositEntry.id eid (fun _ => True) fr.endpoints hde]
  have hiff : (∃ x ∈ fr.endpoints, DepositEntry.id x = eid ∧ True) ↔
      eid ∈ fr.endpoints.map DepositEntry.id := by
    simp
  rw [if_congr hiff rfl rfl]

theorem pairCount_nd (m : Manifest) (fr : FileRecord) (eid : String)
    (hepn : (m.endpoints.map Endpoint.id).Nodup) :
    (notDeposited m fr (fr.endpoints.map DepositEntry.id)).countP
        (fun s => decide (s.file.path = fr.path ∧ erIdOf s = some eid)) =
      if eid ∈ (m.endpoints.map Endpoint.id).filter
          (fun x => !((fr.endpoints.map DepositEntry.id).contains x)) then 1 else 0 := by
  rw [notDeposited, List.countP_map]
  have hcongr : ∀ x ∈ (m.endpoints.map Endpoint.id).filter
      (fun x => !((fr.endpoints.map DepositEntry.id).contains x)),
      ((fun s => decide (s.file.path = fr.path ∧ erIdOf s = some eid)) ∘ (ndEntry m fr)) x =
        decide ((fun y => y) x = eid ∧ True) := by
    intro x hx
    have hxmem : x ∈ m.endpoints.map Endpoint.id := (List.mem_filter.mp hx).1
    obtain ⟨ep, hepm, hepi⟩ := List.mem_map.mp hxmem
    have hsome : (get_endpoint m x).isSome = true :=
      (get_endpoint_isSome_iff m x).mpr ⟨ep, hepm, hepi⟩
    obtain ⟨ep', hep'⟩ := Option.isSome_iff_exists.mp hsome
    have hid : ep'.id = x := get_endpoint_id m x ep' hep'
    simp [Function.comp, ndEntry, erIdOf, hep', hid]
  rw [countP_congr_mem _ _ _ hcongr]
  rw [countP_key_once (fun y => y) eid (fun _ => True) _ (by
    simpa using List.Nodup.filter _ hepn)]
  have hiff : (∃ x ∈ (m.endpoints.map Endpoint.id).filter
      (fun x => !((fr.endpoints.map DepositEntry.id).contains x)), x = eid ∧ True) ↔
      eid ∈ (m.endpoints.map Endpoint.id).filter
        (fun x => !((fr.endpoints.map DepositEntry.id).contains x)) := by
    simp
  rw [if_congr hiff rfl rfl]

theorem noact_part_countP (m : Manifest) (fr : FileRecord) (q : StateEntry → Bool)
    (hq : q { verdict := .NO_ACTION, file := fr, er := none } = false) (c : Prop) [Decidable c] :
    (if c then [({ verdict := Verdict.NO_ACTION, file := fr, er := none } : StateEntry)] else []).countP q = 0 := by
  by_cases hc : c
  · rw [if_pos hc]
    simp [List.countP_cons, hq]
  · rw [if_neg hc]
    rfl

theorem pairCount_fileBlock (m : Manifest) (fr : FileRecord) (eid : String)
    (hfr : noDanglingFile m fr)
    (hde : (fr.endpoints.map DepositEntry.id).Nodup)
    (hepn : (m.endpoints.map Endpoint.id).Nodup)
    (hmem : eid ∈ m.endpoints.map Endpoint.id) :
    (fileBlock m fr).countP (fun s => decide (s.file.path = fr.path ∧ erIdOf s = some eid)) = 1 := by
  simp only [fileBlock]
  rw [List.countP_append, List.countP_append]
  rw [pairCount_evs m fr eid hfr hde, pairCount_nd m fr eid hepn]
  rw [noact_part_countP m fr _ (by simp [erIdOf]) _]
  by_cases hf : eid ∈ fr.endpoints.map DepositEntry.id
  · rw [if_pos hf]
    have hnotin : eid ∉ (m.endpoints.map Endpoint.id).filter
        (fun x => !((fr.endpoints.map DepositEntry.id).contains x)) := by
      intro hmem2
      have hb := (List.mem_filter.mp hmem2).2
      simp only [Bool.not_eq_true'] at hb
      simp only [List.contains] at hb
      rw [List.elem_eq_mem] at hb
      simp [hf] at hb
    rw [if_neg hnotin]
  · rw [if_neg hf]
    have hin : eid ∈ (m.endpoints.map Endpoint.id).filter
        (fun x => !((fr.endpoints.map DepositEntry.id).contains x)) := by
      apply List.mem_filter.mpr
      refine ⟨hmem, ?_⟩
      simp [List.contains, hf]
    rw [if_pos hin]

theorem tagCount_fileBlock (m : Manifest) (fr : FileRecord) (e : DepositEntry) (t : Verdict)
    (hfr : noDanglingFile m fr)
    (hde : (fr.endpoints.map DepositEntry.id).Nodup)
    (he : e ∈ fr.endpoints)
    (htnd : t ≠ Verdict.NOT_DEPOSITED) (htna : t ≠ Verdict.NO_ACTION) :
    (fileBlock m fr).countP
        (fun s => decide (s.file.path = fr.path ∧ erIdOf s = some e.id ∧ s.verdict = t)) =
      if (if fr.updated > e.last_deposit then Verdict.OUT_OF_DATE else Verdict.UP_TO_DATE) = t
      then 1 else 0 := by
  simp only [fileBlock]
  rw [List.countP_append, List.countP_append]
  have hevs : (fr.endpoints.map (evEntry m fr)).countP
      (fun s => decide (s.file.path = fr.path ∧ erIdOf s = some e.id ∧ s.verdict = t)) =
      if (if fr.updated > e.last_deposit then Verdict.OUT_OF_DATE else Verdict.UP_TO_DATE) = t
      then 1 else 0 := by
    rw [List.countP_map]
    have hcongr : ∀ e' ∈ fr.endpoints,
        ((fun s => decide (s.file.path = fr.path ∧ erIdOf s = some e.id ∧ s.verdict = t)) ∘
          (evEntry m fr)) e' =
        decide (DepositEntry.id e' = e.id ∧
          ((if fr.updated > e'.last_deposit then Verdict.OUT_OF_DATE else Verdict.UP_TO_DATE) = t)) := by
      intro e' he'
      obtain ⟨ep, hep⟩ := Option.isSome_iff_exists.mp (hfr e' he')
      have hid : ep.id = e'.id := get_endpoint_id m e'.id ep hep
      simp [Function.comp, evEntry, erIdOf, hep, hid, and_assoc]
    rw [countP_congr_mem _ _ _ hcongr]
    rw [countP_key_once DepositEntry.id e.id
      (fun e' => (if fr.updated > e'.last_deposit then Verdict.OUT_OF_DATE else Verdict.UP_TO_DATE) = t)
      fr.endpoints hde]
    have hiff : (∃ x ∈ fr.endpoints, DepositEntry.id x = e.id ∧
        ((if fr.updated > x.last_deposit then Verdict.OUT_OF_DATE else Verdict.UP_TO_DATE) = t)) ↔
        ((if fr.updated > e.last_deposit then Verdict.OUT_OF_DATE else Verdict.UP_TO_DATE) = t) := by
      constructor
      · rintro ⟨x, hx, hid, hP⟩
        have hxe : x = e := key_unique DepositEntry.id fr.endpoints hde x hx e he hid
        rw [← hxe]
        exact hP
      · intro hP
        exact ⟨e, he, rfl, hP⟩
    rw [if_congr hiff rfl rfl]
  have hnd0 : (notDeposited m fr (fr.endpoints.map DepositEntry.id)).countP
      (fun s => decide (s.file.path = fr.path ∧ erIdOf s = some e.id ∧ s.verdict = t)) = 0 := by
    apply List.countP_eq_zero.mpr
    intro s hs
    obtain ⟨x, hx, rfl⟩ := List.mem_map.mp hs
    simp only [ndEntry, decide_eq_true_eq, not_and]
    intro _ _
    exact fun hv => htnd hv.symm
  have hna0 : (if fr.endpoints.map (evEntry m fr) ++
        notDeposited m fr (fr.endpoints.map DepositEntry.id) = []
      then [({ verdict := Verdict.NO_ACTION, file := fr, er := none } : StateEntry)] else []).countP
      (fun s => decide (s.file.path = fr.path ∧ erIdOf s = some e.id ∧ s.verdict = t)) = 0 :=
    noact_part_countP m fr _ (by simp [erIdOf]) _
  rw [hevs, hnd0, hna0]
  simp

theorem endpoints_empty_iff_block_empty (m : Manifest) (fr : FileRecord)
    (hfr : noDanglingFile m fr) :
    (fr.endpoints.map (evEntry m fr) ++
      notDeposited m fr (fr.endpoints.map DepositEntry.id) = []) ↔ m.endpoints = [] := by
  constructor
  · intro h
    have h1 : fr.endpoints.map (evEntry m fr) = [] := (List.append_eq_nil.mp h).1
    have h2 : notDeposited m fr (fr.endpoints.map DepositEntry.id) = [] := (List.append_eq_nil.mp h).2
    have hent : fr.endpoints = [] := List.map_eq_nil_iff.mp h1
    rw [notDeposited] at h2
    have h3 : (m.endpoints.map Endpoint.id).filter
        (fun eid => !((fr.endpoints.map DepositEntry.id).contains eid)) = [] :=
      List.map_eq_nil_iff.mp h2
    rw [hent] at h3
    have h5 : (m.endpoints.map Endpoint.id).filter
        (fun eid => !((List.map DepositEntry.id ([] : List DepositEntry)).contains eid)) =
        m.endpoints.map Endpoint.id :=
      List.filter_eq_self.mpr (fun a _ => by simp [List.contains])
    rw [h5] at h3
    exact List.map_eq_nil_iff.mp h3
  · intro h
    have hent : fr.endpoints = [] := by
      cases hents : fr.endpoints with
      | nil => rfl
      | cons e rest =>
        exfalso
        have hsome := hfr e (by rw [hents]; simp)
        rw [get_endpoint, h] at hsome
        simp [List.find?] at hsome
    rw [hent, notDeposited, h]
    simp

theorem noActionCount_fileBlock (m : Manifest) (fr : FileRecord) (hfr : noDanglingFile m fr) :
    (fileBlock m fr).countP (fun s => decide (s.file.path = fr.path ∧ s.verdict = Verdict.NO_ACTION)) =
      if m.endpoints = [] then 1 else 0 := by
  simp only [fileBlock]
  rw [List.countP_append, List.countP_append]
  have hevs0 : (fr.endpoints.map (evEntry m fr)).countP
      (fun s => decide (s.file.path = fr.path ∧ s.verdict = Verdict.NO_ACTION)) = 0 := by
    apply List.countP_eq_zero.mpr
    intro s hs
    obtain ⟨e, he, rfl⟩ := List.mem_map.mp hs
    simp only [evEntry, decide_eq_true_eq, not_and]
    intro _
    by_cases hc : fr.updated > e.last_deposit <;> simp [hc]
  have hnd0 : (notDeposited m fr (fr.endpoints.map DepositEntry.id)).countP
      (fun s => decide (s.file.path = fr.path ∧ s.verdict = Verdict.NO_ACTION)) = 0 := by
    apply List.countP_eq_zero.mpr
    intro s hs
    obtain ⟨x, hx, rfl⟩ := List.mem_map.mp hs
    simp [ndEntry]
  have hna : (if fr.endpoints.map (evEntry m fr) ++
        notDeposited m fr (fr.endpoints.map DepositEntry.id) = []
      then [({ verdict := Verdict.NO_ACTION, file := fr, er := none } : StateEntry)] else []).countP
      (fun s => decide (s.file.path = fr.path ∧ s.verdict = Verdict.NO_ACTION)) =
      if (fr.endpoints.map (evEntry m fr) ++
        notDeposited m fr (fr.endpoints.map DepositEntry.id) = []) then 1 else 0 := by
    by_cases hc : fr.endpoints.map (evEntry m fr) ++
        notDeposited m fr (fr.endpoints.map DepositEntry.id) = []
    · rw [if_pos hc, if_pos hc]
      simp [List.countP_cons]
    · rw [if_neg hc, if_neg hc]
      rfl
  rw [hevs0, hnd0, hna]
  rw [if_congr (endpoints_empty_iff_block_empty m fr hfr) rfl rfl]
  simp

theorem otherCount_fileBlock_zero_iff (m : Manifest) (fr : FileRecord)
    (hfr : noDanglingFile m fr) :
    ((fileBlock m fr).countP
        (fun s => decide (s.file.path = fr.path ∧ s.verdict ≠ Verdict.NO_ACTION)) = 0) ↔
      m.endpoints = [] := by
  simp only [fileBlock]
  rw [List.countP_append, List.countP_append]
  have hevsl : (fr.endpoints.map (evEntry m fr)).countP
      (fun s => decide (s.file.path = fr.path ∧ s.verdict ≠ Verdict.NO_ACTION)) =
      (fr.endpoints.map (evEntry m fr)).length := by
    apply List.countP_eq_length.mpr
    intro s hs
    obtain ⟨e, he, rfl⟩ := List.mem_map.mp hs
    simp only [evEntry, decide_eq_true_eq]
    refine ⟨by trivial, ?_⟩
    by_cases hc : fr.updated > e.last_deposit <;> simp [hc]
  have hndl : (notDeposited m fr (fr.endpoints.map DepositEntry.id)).countP
      (fun s => decide (s.file.path = fr.path ∧ s.verdict ≠ Verdict.NO_ACTION)) =
      (notDeposited m fr (fr.endpoints.map DepositEntry.id)).length := by
    apply List.countP_eq_length.mpr
    intro s hs
    obtain ⟨x, hx, rfl⟩ := List.mem_map.mp hs
    simp [ndEntry]
  have hna0 : (if fr.endpoints.map (evEntry m fr) ++
        notDeposited m fr (fr.endpoints.map DepositEntry.id) = []
      then [({ verdict := Verdict.NO_ACTION, file := fr, er := none } : StateEntry)] else []).countP
      (fun s => decide (s.file.path = fr.path ∧ s.verdict ≠ Verdict.NO_ACTION)) = 0 :=
    noact_part_countP m fr _ (by simp) _
  rw [hevsl, hndl, hna0]
  rw [← endpoints_empty_iff_block_empty m fr hfr]
  constructor
  · intro h
    have h1 : (fr.endpoints.map (evEntry m fr)).length = 0 := by omega
    have h2 : (notDeposited m fr (fr.endpoints.map DepositEntry.id)).length = 0 := by omega
    rw [List.length_eq_zero.mp h1, List.length_eq_zero.mp h2]
    rfl
  · intro h
    have h1 : fr.endpoints.map (evEntry m fr) = [] := (List.append_eq_nil.mp h).1
    have h2 : notDeposited m fr (fr.endpoints.map DepositEntry.id) = [] := (List.append_eq_nil.mp h).2
    rw [h1, h2]
    rfl

theorem blocks_countP_localize (m : Manifest) (q : StateEntry → Bool) (p : String)
    (hq : ∀ s, q s = true → s.file.path = p) (l : List FileRecord)
    (hnodup : (l.map FileRecord.path).Nodup) (fr : FileRecord) (hmem : fr ∈ l)
    (hp : fr.path = p) :
    (blocks m l).countP q = (fileBlock m fr).countP q := by
  induction l with
  | nil => simp at hmem
  | cons fr' rest ih =>
    have hnodup2 : (fr'.path :: rest.map FileRecord.path).Nodup := by
      simpa only [List.map_cons] using hnodup
    obtain ⟨hnotmem, hnd⟩ := List.nodup_cons.mp hnodup2
    simp only [blocks]
    rw [List.countP_append]
    rcases List.mem_cons.mp hmem with rfl | hmemrest
    · have hzero : (blocks m rest).countP q = 0 := by
        apply List.countP_eq_zero.mpr
        intro s hs hqs
        obtain ⟨fr'', hfr'', hfile⟩ := mem_blocks m rest s hs
        have hsp := hq s hqs
        rw [hfile] at hsp
        apply hnotmem
        rw [hp, ← hsp]
        exact List.mem_map.mpr ⟨fr'', hfr'', rfl⟩
      rw [hzero]
      simp
    · have hzero : (fileBlock m fr').countP q = 0 := by
        apply List.countP_eq_zero.mpr
        intro s hs hqs
        have hfile := mem_fileBlock_file m fr' s hs
        have hsp := hq s hqs
        rw [hfile] at hsp
        apply hnotmem
        rw [hsp, ← hp]
        exact List.mem_map.mpr ⟨fr, hmemrest, rfl⟩
      rw [hzero, ih hnd hmemrest]
      simp

/-- C1 (amended): on a manifest satisfying the data-model invariants
(unique endpoint ids, unique tracked paths, deposit logs keyed uniquely),
with no dangling deposit-log entry and no file newer on disk than its
recorded updatedAt, get_state succeeds; when at least one endpoint is
registered it emits exactly one verdict per (file, registered endpoint)
pair and no NO_ACTION verdicts; and a file gets a single NO_ACTION
verdict iff it got no other verdicts, which happens exactly when no
endpoints exist in the system. -/
theorem C1_one_verdict_per_pair (fs : Filesystem) (now : Nat) (base : String) (st : DIPState)
    (hns : noStale fs base st.manifest)
    (hnd : noDangling st.manifest)
    (hepn : (st.manifest.endpoints.map Endpoint.id).Nodup)
    (hfpn : (st.manifest.files.map FileRecord.path).Nodup)
    (hde : entryIdsNodup st.manifest) :
    ∃ vs, get_state fs now base st = .ok (st, vs) ∧
      (st.manifest.endpoints ≠ [] →
        (∀ fr ∈ st.manifest.files, ∀ ep ∈ st.manifest.endpoints, pairCount vs fr.path ep.id = 1) ∧
        (∀ fr ∈ st.manifest.files, noActionCount vs fr.path = 0)) ∧
      (∀ fr ∈ st.manifest.files,
        (noActionCount vs fr.path = 1 ↔ otherCount vs fr.path = 0) ∧
        (noActionCount vs fr.path = 1 ↔ st.manifest.endpoints = [])) := by
  refine ⟨blocks st.manifest st.manifest.files,
    get_state_blocks fs now base st hns hnd hfpn, ?_, ?_⟩
  · intro hne
    constructor
    · intro fr hfr ep hep
      rw [pairCount, blocks_countP_localize st.manifest _ fr.path
        (fun s h => (of_decide_eq_true h).1) st.manifest.files hfpn fr hfr rfl]
      exact pairCount_fileBlock st.manifest fr ep.id (hnd fr hfr) (hde fr hfr) hepn
        (List.mem_map.mpr ⟨ep, hep, rfl⟩)
    · intro fr hfr
      rw [noActionCount, blocks_countP_localize st.manifest _ fr.path
        (fun s h => (of_decide_eq_true h).1) st.manifest.files hfpn fr hfr rfl]
      rw [noActionCount_fileBlock st.manifest fr (hnd fr hfr), if_neg hne]
  · intro fr hfr
    have hnoact : noActionCount (blocks st.manifest st.manifest.files) fr.path =
        if st.manifest.endpoints = [] then 1 else 0 := by
      rw [noActionCount, blocks_countP_localize st.manifest _ fr.path
        (fun s h => (of_decide_eq_true h).1) st.manifest.files hfpn fr hfr rfl]
      exact noActionCount_fileBlock st.manifest fr (hnd fr hfr)
    have hother : (otherCount (blocks st.manifest st.manifest.files) fr.path = 0) ↔
        st.manifest.endpoints = [] := by
      rw [otherCount, blocks_countP_localize st.manifest _ fr.path
        (fun s h => (of_decide_eq_true h).1) st.manifest.files hfpn fr hfr rfl]
      exact otherCount_fileBlock_zero_iff st.manifest fr (hnd fr hfr)
    constructor
    · rw [hother]
      by_cases hc : st.manifest.endpoints = [] <;> simp [hnoact, hc]
    · rw [hnoact]
      by_cases hc : st.manifest.endpoints = [] <;> simp [hc]

/-- C1 counterexample: a manifest with one registered endpoint and one
tracked file holding a deposit-log entry for a removed endpoint id makes
get_state raise (AttributeError on the unresolvable endpoint) instead of
producing one verdict per (file, registered endpoint) pair. -/
theorem C1_counterexample :
    get_state fsA 0 "/b" stC1x = .error () ∧ stC1x.manifest.endpoints ≠ [] :=
  ⟨rfl, by decide⟩

theorem C1_one_verdict_per_pair_witness :
    (noStale fsA "/b" stW.manifest ∧ noDangling stW.manifest ∧
     (stW.manifest.endpoints.map Endpoint.id).Nodup ∧
     (stW.manifest.files.map FileRecord.path).Nodup ∧ entryIdsNodup stW.manifest) ∧
    (∃ vs, get_state fsA 9 "/b" stW = .ok (stW, vs) ∧
      (stW.manifest.endpoints ≠ [] →
        (∀ fr ∈ stW.manifest.files, ∀ ep ∈ stW.manifest.endpoints, pairCount vs fr.path ep.id = 1) ∧
        (∀ fr ∈ stW.manifest.files, noActionCount vs fr.path = 0)) ∧
      (∀ fr ∈ stW.manifest.files,
        (noActionCount vs fr.path = 1 ↔ otherCount vs fr.path = 0) ∧
        (noActionCount vs fr.path = 1 ↔ stW.manifest.endpoints = []))) :=
  ⟨⟨by decide, by decide, by decide, by decide, by decide⟩,
   C1_one_verdict_per_pair fsA 9 "/b" stW (by decide) (by decide) (by decide) (by decide) (by decide)⟩

/-- C4: for a resolvable (file, deposit-record) pair, the verdict is
UP_TO_DATE exactly when updatedAt is less than or equal to lastDepositAt
(so equal timestamps give UP_TO_DATE, not OUT_OF_DATE), and OUT_OF_DATE
exactly when updatedAt is strictly greater. -/
theorem C4_equal_timestamps_up_to_date (fs : Filesystem) (now : Nat) (base : String)
    (st : DIPState) (fr : FileRecord) (e : DepositEntry)
    (hns : noStale fs base st.manifest)
    (hnd : noDangling st.manifest)
    (hepn : (st.manifest.endpoints.map Endpoint.id).Nodup)
    (hfpn : (st.manifest.files.map FileRecord.path).Nodup)
    (hde : entryIdsNodup st.manifest)
    (hfr : fr ∈ st.manifest.files) (he : e ∈ fr.endpoints) :
    ∃ vs, get_state fs now base st = .ok (st, vs) ∧
      tagCount vs fr.path e.id Verdict.UP_TO_DATE = (if fr.updated ≤ e.last_deposit then 1 else 0) ∧
      tagCount vs fr.path e.id Verdict.OUT_OF_DATE = (if e.last_deposit < fr.updated then 1 else 0) := by
  refine ⟨blocks st.manifest st.manifest.files,
    get_state_blocks fs now base st hns hnd hfpn, ?_, ?_⟩
  · rw [tagCount, blocks_countP_localize st.manifest _ fr.path
      (fun s h => (of_decide_eq_true h).1) st.manifest.files hfpn fr hfr rfl]
    rw [tagCount_fileBlock st.manifest fr e Verdict.UP_TO_DATE (hnd fr hfr) (hde fr hfr) he
      (by simp) (by simp)]
    by_cases hc : fr.updated > e.last_deposit
    · rw [if_pos hc]
      have h2 : ¬ fr.updated ≤ e.last_deposit := Nat.not_le.mpr hc
      simp [h2]
    · rw [if_neg hc]
      have h2 : fr.updated ≤ e.last_deposit := Nat.not_lt.mp hc
      simp [h2]
  · rw [tagCount, blocks_countP_localize st.manifest _ fr.path
      (fun s h => (of_decide_eq_true h).1) st.manifest.files hfpn fr hfr rfl]
    rw [tagCount_fileBlock st.manifest fr e Verdict.OUT_OF_DATE (hnd fr hfr) (hde fr hfr) he
      (by simp) (by simp)]
    by_cases hc : fr.updated > e.last_deposit
    · rw [if_pos hc]
      simp [hc]
    · rw [if_neg hc]
      simp [hc]

theorem C4_equal_timestamps_up_to_date_witness :
    (noStale fsA "/b" stW.manifest ∧ noDangling stW.manifest ∧
     (stW.manifest.endpoints.map Endpoint.id).Nodup ∧
     (stW.manifest.files.map FileRecord.path).Nodup ∧ entryIdsNodup stW.manifest ∧
     frW ∈ stW.manifest.files ∧
     ({ id := "E1", last_deposit := 5 } : DepositEntry) ∈ frW.endpoints) ∧
    (∃ vs, get_state fsA 9 "/b" stW = .ok (stW, vs) ∧
      tagCount vs frW.path ({ id := "E1", last_deposit := 5 } : DepositEntry).id Verdict.UP_TO_DATE =
        (if frW.updated ≤ ({ id := "E1", last_deposit := 5 } : DepositEntry).last_deposit then 1 else 0) ∧
      tagCount vs frW.path ({ id := "E1", last_deposit := 5 } : DepositEntry).id Verdict.OUT_OF_DATE =
        (if ({ id := "E1", last_deposit := 5 } : DepositEntry).last_deposit < frW.updated then 1 else 0)) :=
  ⟨⟨by decide, by decide, by decide, by decide, by decide, by decide, by decide⟩,
   C4_equal_timestamps_up_to_date fsA 9 "/b" stW frW { id := "E1", last_deposit := 5 }
     (by decide) (by decide) (by decide) (by decide) (by decide) (by decide) (by decide)⟩

theorem removeLoop_nomatch_walk (norm : String) (n : Nat) :
    ∀ (s : Nat) (files : List FileRecord), (∀ x ∈ files, (x.path == norm) = false) →
    removeLoop norm (List.range' s n) files =
      if n = 0 ∨ s + n ≤ files.length then .ok files else .error files := by
  induction n with
  | zero =>
    intro s files _
    simp [removeLoop, List.range']
  | succ k ih =>
    intro s files h
    rw [List.range'_succ]
    by_cases hs : s < files.length
    · obtain ⟨x, hx⟩ : ∃ x, files.get? s = some x := by
        cases hg : files.get? s with
        | none =>
          rw [List.get?_eq_none] at hg
          omega
        | some x => exact ⟨x, rfl⟩
      have hxm : x ∈ files := List.get?_mem hx
      simp only [removeLoop, hx, h x hxm, Bool.false_eq_true, if_false]
      rw [ih (s + 1) files h]
      have hiff : (k = 0 ∨ s + 1 + k ≤ files.length) ↔ (k + 1 = 0 ∨ s + (k + 1) ≤ files.length) := by
        omega
      rw [if_congr hiff rfl rfl]
    · have hg : files.get? s = none := List.get?_eq_none.mpr (by omega)
      simp only [removeLoop, hg]
      have hc : ¬ (k + 1 = 0 ∨ s + (k + 1) ≤ files.length) := by omega
      rw [if_neg hc]

theorem removeLoop_skip (norm : String) (k : Nat) :
    ∀ (s : Nat) (files : List FileRecord) (rest : List Nat),
    (∀ j, s ≤ j → j < s + k → ∃ x, files.get? j = some x ∧ (x.path == norm) = false) →
    removeLoop norm (List.range' s k ++ rest) files = removeLoop norm rest files := by
  induction k with
  | zero =>
    intro s files rest _
    simp [List.range']
  | succ t ih =>
    intro s files rest h
    rw [List.range'_succ, List.cons_append]
    obtain ⟨x, hx, hxf⟩ := h s (Nat.le_refl s) (by omega)
    simp only [removeLoop, hx, hxf, Bool.false_eq_true, if_false]
    exact ih (s + 1) files rest (fun j h1 h2 => h j (by omega) (by omega))

theorem get?_append_cons_length {α : Type} (A : List α) (r : α) (B : List α) :
    (A ++ r :: B).get? A.length = some r := by
  induction A with
  | nil => rfl
  | cons a t ih => simpa using ih

theorem eraseIdx_append_cons_length {α : Type} (A : List α) (r : α) (B : List α) :
    (A ++ r :: B).eraseIdx A.length = A ++ B := by
  induction A with
  | nil => rfl
  | cons a t ih =>
    show a :: ((t ++ r :: B).eraseIdx t.length) = a :: (t ++ B)
    rw [ih]

/-- C10: remove_file computes its index range from the pre-deletion length,
so with the unique matching record at position k (A before it, B after),
the deletion succeeds only when B is empty (the match is the final
element); otherwise the record is deleted from the in-memory list and the
loop then raises IndexError, leaving the mutated manifest in memory.  In
neither case is anything persisted (the disk field is untouched). -/
theorem C10_remove_file_index_error (fs : Filesystem) (base : String) (st : DIPState) (p : String)
    (A B : List FileRecord) (r : FileRecord)
    (hsplit : st.manifest.files = A ++ r :: B)
    (hA : ∀ x ∈ A, x.path ≠ normalise_path fs p base)
    (hB : ∀ x ∈ B, x.path ≠ normalise_path fs p base)
    (hr : r.path = normalise_path fs p base) :
    (B = [] → remove_file fs base st p =
      .ok { st with manifest := { st.manifest with files := A } }) ∧
    (B ≠ [] → remove_file fs base st p =
      .error { st with manifest := { st.manifest with files := A ++ B } }) := by
  have hloop : removeLoop (normalise_path fs p base)
      (List.range st.manifest.files.length) st.manifest.files =
      if B = [] then .ok (A ++ B) else .error (A ++ B) := by
    rw [hsplit]
    have hlen : (A ++ r :: B).length = A.length + (B.length + 1) := by
      simp [List.length_append]
    rw [hlen, List.range_eq_range']
    have hsplitrange : List.range' 0 (A.length + (B.length + 1)) =
        List.range' 0 A.length ++ List.range' A.length (B.length + 1) := by
      have h0 := (List.range'_append 0 A.length (B.length + 1) 1).symm
      rw [show A.length + (B.length + 1) = (B.length + 1) + A.length from by omega]
      simpa using h0
    rw [hsplitrange]
    rw [removeLoop_skip (normalise_path fs p base) A.length 0 (A ++ r :: B)
      (List.range' A.length (B.length + 1)) ?hfront]
    case hfront =>
      intro j _ h2
      have hj : j < A.length := by omega
      cases hg : A.get? j with
      | none =>
        rw [List.get?_eq_none] at hg
        omega
      | some x =>
        have hxm : x ∈ A := List.get?_mem hg
        refine ⟨x, ?_, ?_⟩
        · rw [List.get?_append hj, hg]
        · simp [hA x hxm]
    rw [List.range'_succ]
    have hrb : (r.path == normalise_path fs p base) = true := by simp [hr]
    simp only [removeLoop, get?_append_cons_length A r B, hrb, if_true]
    rw [eraseIdx_append_cons_length A r B]
    rw [removeLoop_nomatch_walk (normalise_path fs p base) B.length (A.length + 1) (A ++ B) ?hnom]
    case hnom =>
      intro x hx
      rcases List.mem_append.mp hx with hxa | hxb
      · simp [hA x hxa]
      · simp [hB x hxb]
    have hc : (B.length = 0 ∨ A.length + 1 + B.length ≤ (A ++ B).length) ↔ (B = []) := by
      rw [List.length_append]
      constructor
      · rintro (h0 | hle)
        · exact List.length_eq_zero.mp h0
        · exact absurd hle (by omega)
      · intro hB0
        subst hB0
        simp
    rw [if_congr hc rfl rfl]
  constructor
  · intro hBnil
    subst hBnil
    simp only [remove_file, hloop, if_pos rfl]
    simp
  · intro hBne
    simp only [remove_file, hloop, if_neg hBne]

theorem C10_remove_file_index_error_witness :
    (stC10.manifest.files = [fr0] ++ frR :: [fr1] ∧
     (∀ x ∈ [fr0], x.path ≠ normalise_path fsA "/b/r" "/b") ∧
     (∀ x ∈ [fr1], x.path ≠ normalise_path fsA "/b/r" "/b") ∧
     frR.path = normalise_path fsA "/b/r" "/b") ∧
    (([fr1] = [] → remove_file fsA "/b" stC10 "/b/r" =
      .ok { stC10 with manifest := { stC10.manifest with files := [fr0] } }) ∧
     ([fr1] ≠ [] → remove_file fsA "/b" stC10 "/b/r" =
      .error { stC10 with manifest := { stC10.manifest with files := [fr0] ++ [fr1] } })) :=
  ⟨⟨by decide, by decide, by decide, by decide⟩,
   C10_remove_file_index_error fsA "/b" stC10 "/b/r" [fr0] [fr1] frR
     (by decide) (by decide) (by decide) (by decide)⟩

end Dip
